import Mathlib

/-!
Verification of the Violentproxy (NanoProxy) core engine against its
natural-language specification.

The development shallowly embeds the JavaScript source:

* JavaScript strings are modelled as lists of characters (`JStr`);
  `String.prototype.split` with a one-character separator is `splitChar`
  and `Array.prototype.join` is `joinChar`.
* The certificate cache (`Cert` class of the TLS engine), the dynamic SNI
  server's `prepare`, the connect engine's target validation, the TLS
  handshake sniff, the response finalizer and the keep-alive agent pool
  are each translated into executable Lean definitions, one definition
  per source function.
* JavaScript runtime failures that matter to the claims (a `TypeError`
  from calling `push` on an undefined property, a `ReferenceError` from
  assigning an undeclared variable in a strict-mode module) are modelled
  with `Except`.
-/

/-- A JavaScript string, modelled as its list of characters. -/
abbrev JStr := List Char

/-- Convenience conversion from a Lean string literal to a `JStr`. -/
def jstr (s : String) : JStr := s.data

/-- `String.prototype.split(sep)` for a one-character separator `c`:
splitting the empty string yields one empty piece, and every occurrence
of the separator starts a new piece. -/
def splitChar (c : Char) : JStr → List JStr
  | [] => [[]]
  | x :: xs =>
    if x = c then
      [] :: splitChar c xs
    else
      match splitChar c xs with
      | [] => [[x]]
      | h :: t => (x :: h) :: t

/-- `Array.prototype.join(sep)` for a one-character separator `c`. -/
def joinChar (c : Char) : List JStr → JStr
  | [] => []
  | [p] => p
  | p :: q :: ps => p ++ c :: joinChar c (q :: ps)

/-- Number of occurrences of the character `a` in a `JStr`. -/
def ccount (a : Char) : JStr → Nat
  | [] => 0
  | x :: xs => (if x = a then 1 else 0) + ccount a xs

theorem ccount_append (a : Char) (l m : JStr) :
    ccount a (l ++ m) = ccount a l + ccount a m := by
  induction l with
  | nil => simp [ccount]
  | cons x xs ih => simp [ccount, ih]; omega

theorem splitChar_ne_nil (c : Char) (l : JStr) : splitChar c l ≠ [] := by
  cases l with
  | nil => simp [splitChar]
  | cons x xs =>
    simp only [splitChar]
    split
    · simp
    · split
      · simp
      · simp

theorem joinChar_splitChar (c : Char) (l : JStr) :
    joinChar c (splitChar c l) = l := by
  induction l with
  | nil => rfl
  | cons x xs ih =>
    simp only [splitChar]
    split
    · rename_i hx
      rcases hS : splitChar c xs with _ | ⟨h, t⟩
      · exact absurd hS (splitChar_ne_nil c xs)
      · rw [hS] at ih
        simp only [joinChar, hx]
        rw [ih]
        simp
    · rcases hS : splitChar c xs with _ | ⟨h, t⟩
      · exact absurd hS (splitChar_ne_nil c xs)
      · rw [hS] at ih
        cases t with
        | nil =>
          simp only [joinChar] at ih ⊢
          rw [ih]
        | cons q ts =>
          simp only [joinChar] at ih ⊢
          rw [List.cons_append, ih]

theorem ccount_joinChar (a c : Char) (hne : c ≠ a) (ls : List JStr) :
    ccount a (joinChar c ls) = (ls.map (ccount a)).sum := by
  induction ls with
  | nil => simp [joinChar, ccount]
  | cons p ps ih =>
    cases ps with
    | nil => simp [joinChar]
    | cons q qs =>
      rw [show joinChar c (p :: q :: qs) = p ++ c :: joinChar c (q :: qs) from rfl]
      rw [ccount_append]
      simp only [ccount, hne, if_false, List.map, List.sum_cons] at ih ⊢
      omega

theorem ccount_mem_le_sum (a : Char) (p : JStr) :
    ∀ ls : List JStr, p ∈ ls → ccount a p ≤ (ls.map (ccount a)).sum := by
  intro ls
  induction ls with
  | nil => intro hp; cases hp
  | cons q qs ih =>
    intro hp
    rcases List.mem_cons.mp hp with heq | hmem
    · subst heq
      simp only [List.map, List.sum_cons]
      omega
    · have := ih hmem
      simp only [List.map, List.sum_cons]
      omega

theorem ccount_piece_le (a c : Char) (hne : c ≠ a) (l : JStr) (p : JStr)
    (hp : p ∈ splitChar c l) : ccount a p ≤ ccount a l := by
  have hjoin := joinChar_splitChar c l
  have hcount : ccount a l = ((splitChar c l).map (ccount a)).sum := by
    rw [← ccount_joinChar a c hne, hjoin]
  rw [hcount]
  exact ccount_mem_le_sum a p (splitChar c l) hp


/-- The cache-key derivation performed at the top of `exports.sign`
(TLS engine, `src/unnamed/part_001`, lines 500-518): split the host on
`.`; with fewer than two labels the key is the host itself, with exactly
two labels the key is `*.` prepended to the host, and with more labels
the first label is replaced by `*` and the labels are re-joined. -/
def cacheKey (domain : JStr) : JStr :=
  if (splitChar '.' domain).length < 2 then domain
  else if (splitChar '.' domain).length = 2 then '*' :: '.' :: domain
  else joinChar '.' (['*'] :: (splitChar '.' domain).tail)

/-- The `domainsToSign` list computed alongside `cacheKey` in
`exports.sign`: the host alone for local names, otherwise the host
together with the wildcard cache key. -/
def domainsToSign (domain : JStr) : List JStr :=
  if (splitChar '.' domain).length < 2 then [domain]
  else [domain, cacheKey domain]

example : cacheKey (jstr ("a.example.com")) = jstr ("*.example.com") := by decide
example : cacheKey (jstr ("example.com")) = jstr ("*.example.com") := by decide
example : cacheKey (jstr ("localhost")) = jstr ("localhost") := by decide
example : cacheKey (jstr ("a.com")) = jstr ("*.a.com") := by decide

/-- C2, counterexample: the claimed corollary "any two hosts whose labels
match except the leftmost have equal cache keys" fails at the concrete
two-label hosts `a.com` and `b.com`: their label lists agree except for
the leftmost label, yet the derivation keeps the whole host inside the
key (`*.a.com` versus `*.b.com`). -/
theorem cacheKey_leftmost_label_claim_false :
    (splitChar '.' (jstr ("a.com"))).tail = (splitChar '.' (jstr ("b.com"))).tail ∧
    (splitChar '.' (jstr ("a.com"))).length = 2 ∧
    (splitChar '.' (jstr ("b.com"))).length = 2 ∧
    cacheKey (jstr ("a.com")) ≠ cacheKey (jstr ("b.com")) := by decide

/-- C2, amended: for every host that contains no `*` the derived cache
key contains at most one `*`; and two hosts whose labels match except
the leftmost share a cache key provided they have at least three labels
(for two-label hosts the key retains the leftmost label, see the
counterexample). -/
theorem cacheKey_amended :
    (∀ h : JStr, ccount '*' h = 0 → ccount '*' (cacheKey h) ≤ 1) ∧
    (∀ (h1 h2 l1 l2 : JStr) (t : List JStr),
      splitChar '.' h1 = l1 :: t → splitChar '.' h2 = l2 :: t → 2 ≤ t.length →
      cacheKey h1 = cacheKey h2) := by
  constructor
  · intro h hstar
    unfold cacheKey
    have hdotstar : ('.' : Char) ≠ '*' := by decide
    split
    · omega
    · split
      · simp [ccount, hstar]
      · rw [ccount_joinChar '*' '.' hdotstar]
        rcases hS : splitChar '.' h with _ | ⟨p, ps⟩
        · exact absurd hS (splitChar_ne_nil '.' h)
        · simp only [hS, List.tail_cons, List.map, List.sum_cons]
          have hone : ccount '*' ['*'] = 1 := by decide
          rw [hone]
          have hzero : (ps.map (ccount '*')).sum = 0 := by
            rw [List.sum_eq_zero]
            intro x hx
            rcases List.mem_map.mp hx with ⟨q, hq, rfl⟩
            have hmem : q ∈ splitChar '.' h := by
              rw [hS]; exact List.mem_cons_of_mem p hq
            have := ccount_piece_le '*' '.' hdotstar h q hmem
            omega
          omega
  · intro h1 h2 l1 l2 t hs1 hs2 hlen
    unfold cacheKey
    rw [hs1, hs2]
    simp only [List.length_cons, List.tail_cons]
    have hnlt : ¬ (t.length + 1 < 2) := by omega
    have hne2 : ¬ (t.length + 1 = 2) := by omega
    rw [if_neg hnlt, if_neg hne2, if_neg hnlt, if_neg hne2]

/-- C2, witness: the amended theorem applied at the three-label hosts
`a.x.com` and `b.x.com` and at the star-free host `a.x.com`. -/
theorem cacheKey_amended_witness :
    (ccount '*' (jstr ("a.x.com")) = 0 ∧ ccount '*' (cacheKey (jstr ("a.x.com"))) ≤ 1) ∧
    cacheKey (jstr ("a.x.com")) = cacheKey (jstr ("b.x.com")) :=
  ⟨⟨by decide, cacheKey_amended.1 (jstr ("a.x.com")) (by decide)⟩,
    cacheKey_amended.2 (jstr ("a.x.com")) (jstr ("b.x.com")) (jstr ("a")) (jstr ("b"))
      [jstr ("x"), jstr ("com")] (by decide) (by decide) (by decide)⟩

/-- `String.prototype.split` with a separator class (used by the engine
for the regular expressions matching a comma or semicolon, and by the
agent pool for the one matching an equals sign or comma). -/
def splitBy (p : Char → Bool) : JStr → List JStr
  | [] => [[]]
  | x :: xs =>
    if p x then
      [] :: splitBy p xs
    else
      match splitBy p xs with
      | [] => [[x]]
      | h :: t => (x :: h) :: t

/-- `String.prototype.trim`, restricted to the space character (the only
whitespace that occurs in the header values the engine splits). -/
def jsTrim (s : JStr) : JStr :=
  ((s.dropWhile (fun c => c == ' ')).reverse.dropWhile (fun c => c == ' ')).reverse

/-- `String.prototype.toLowerCase` for ASCII data. -/
def jsToLower (s : JStr) : JStr := s.map Char.toLower

/-- `getType` of the request engine (`Violentengine.js`, lines 993-1001,
final draft): the argument defaults to the empty string when the header
is absent (`str = ""`), the value is split on commas and semicolons, and
the first component that contains a `/` but no `*` is returned trimmed;
otherwise the default `text/html` is returned. -/
def getTypeJs (s? : Option JStr) : JStr :=
  match (splitBy (fun c => c == ',' || c == ';') (s?.getD [])).find?
      (fun p => !(p.contains '*') && p.contains '/') with
  | some p => jsTrim p
  | none => jstr ("text/html")

/-- `isText` of the request engine (`Violentengine.js`, lines 1007-1014):
a falsy MIME string is not text, otherwise text means a `text/` prefix or
an `/xhtml+xml` or `/xml` suffix. -/
def isTextMime (m : JStr) : Bool :=
  if m.isEmpty then false
  else (jstr ("text/")).isPrefixOf m
    || (jstr ("/xhtml+xml")).isSuffixOf m
    || (jstr ("/xml")).isSuffixOf m

/-- How the request engine dispatches a buffered upstream response body
(`Violentengine.js`, lines 1099-1128): the content type is classified by
`isText (getType ...)`; text responses additionally select gzip and
deflate payloads for decoding before the text patcher runs, while all
other responses go to the binary patcher with the still-encoded bytes. -/
inductive ResponseRoute where
  | textPatchAfterDecode : ResponseRoute
  | textPatchIdentity : ResponseRoute
  | otherPatch : ResponseRoute
deriving DecidableEq

/-- The response-dispatch decision of the request engine, as a function
of the upstream `content-type` and `content-encoding` header values
(`none` models an absent header; an absent encoding compares unequal to
the gzip and deflate literals, exactly as `undefined` does). -/
def routeResponse (contentType contentEncoding : Option JStr) : ResponseRoute :=
  if isTextMime (getTypeJs contentType) then
    if jsToLower (contentEncoding.getD []) = jstr ("gzip")
        ∨ jsToLower (contentEncoding.getD []) = jstr ("deflate") then
      ResponseRoute.textPatchAfterDecode
    else
      ResponseRoute.textPatchIdentity
  else
    ResponseRoute.otherPatch

/-- C10: a response with no Content-Type header is NOT treated as binary
by the final request engine: the call site wraps the missing header in
`getType`, whose default returns `text/html`, so `isText` answers true,
the text patcher is selected, and a gzip Content-Encoding even triggers
decoding. This contradicts the claim (and the comment inside `isText`):
the missing-content-type branch of `isText` is unreachable from this
call site. -/
theorem no_content_type_goes_to_text_path :
    getTypeJs none = jstr ("text/html") ∧
    isTextMime (getTypeJs none) = true ∧
    routeResponse none (some (jstr ("gzip"))) = ResponseRoute.textPatchAfterDecode ∧
    routeResponse none none = ResponseRoute.textPatchIdentity ∧
    isTextMime [] = false := by decide

/-- The classification outcome of `connectEngine.onHandshake`
(`Violentengine.js`, lines 1356-1380, final draft). -/
inductive HandshakeAction where
  | routeToDynamicServer : HandshakeAction
  | destroySocket : HandshakeAction
deriving DecidableEq

/-- The TLS sniff of `connectEngine.onHandshake`: the first three bytes
must be `0x16`, `0x03`, and a third byte strictly below `0x06`. -/
def isTLShandshake (b0 b1 b2 : Nat) : Bool :=
  b0 == 0x16 && b1 == 0x03 && decide (b2 < 0x06)

/-- `connectEngine.onHandshake`: a TLS prefix routes the tunnel to the
dynamic SNI server (prepare, connect to its port, pipe, re-emit the
peeked bytes); any other prefix destroys the client socket. -/
def onHandshake (b0 b1 b2 : Nat) : HandshakeAction :=
  if isTLShandshake b0 b1 b2 then HandshakeAction.routeToDynamicServer
  else HandshakeAction.destroySocket

/-- C3: the tunnel is classified TLS and routed to the dynamic server
exactly when the first three bytes satisfy `B0 = 0x16`, `B1 = 0x03`,
`B2 ≤ 0x05`, and destroyed otherwise; `[0x16,0x03,0x01]` is TLS while
`[0x16,0x03,0x06]` and `"GET"` (`[0x47,0x45,0x54]`) are not. -/
theorem tls_sniff_correct :
    (∀ b0 b1 b2 : Nat,
      (onHandshake b0 b1 b2 = HandshakeAction.routeToDynamicServer ↔
        (b0 = 0x16 ∧ b1 = 0x03 ∧ b2 ≤ 0x05)) ∧
      (onHandshake b0 b1 b2 = HandshakeAction.destroySocket ↔
        ¬ (b0 = 0x16 ∧ b1 = 0x03 ∧ b2 ≤ 0x05))) ∧
    onHandshake 0x16 0x03 0x01 = HandshakeAction.routeToDynamicServer ∧
    onHandshake 0x16 0x03 0x06 = HandshakeAction.destroySocket ∧
    onHandshake 0x47 0x45 0x54 = HandshakeAction.destroySocket := by
  refine ⟨fun b0 b1 b2 => ?_, by decide, by decide, by decide⟩
  have hiff : isTLShandshake b0 b1 b2 = true ↔ (b0 = 0x16 ∧ b1 = 0x03 ∧ b2 ≤ 0x05) := by
    simp [isTLShandshake]
    omega
  constructor
  · rw [← hiff]
    unfold onHandshake
    split <;> rename_i hb <;> simp [hb]
  · rw [← hiff]
    unfold onHandshake
    split <;> rename_i hb <;> simp [hb]

/-- A JavaScript header dictionary: an association list from exact
(case-sensitive) property names to values. Node.js delivers the headers
of an upstream `IncomingMessage` with lower-cased names. -/
abbrev Header := List (String × String)

/-- Property lookup `headers[k]`. -/
def lookupH (k : String) (h : Header) : Option String :=
  (h.find? (fun p => p.1 == k)).map (fun p => p.2)

/-- Property assignment `headers[k] = v` (replaces an existing exact key,
otherwise appends). -/
def jsSetH (k v : String) (h : Header) : Header :=
  if h.any (fun p => p.1 == k) then
    h.map (fun p => if p.1 == k then (k, v) else p)
  else
    h ++ [(k, v)]

/-- Property deletion `delete headers[k]`: removes the exact key only. -/
def jsDeleteH (k : String) (h : Header) : Header :=
  h.filter (fun p => !(p.1 == k))

/-- The header mutations of `requestEngine.finalize`
(`Violentengine.js`, lines 1168-1177): set `content-length` to the
length of the response data, then `delete` the key `Public-Key-Pins`,
then emit the resulting headers with `writeHead`. -/
def finalizeHeaders (remoteHeaders : Header) (bodyLen : Nat) : Header :=
  jsDeleteH ("Public-Key-Pins") (jsSetH ("content-length") (toString bodyLen) remoteHeaders)

/-- C4: evaluated at an upstream response that carried a Public-Key-Pins
header — which Node.js presents under the lower-cased key
`public-key-pins` — the emitted headers still contain that header,
because `delete remoteRes.headers["Public-Key-Pins"]` never matches the
lower-cased key. The Content-Length conjunct of the claim does hold: the
emitted `content-length` equals the length of the body written. -/
theorem finalize_keeps_public_key_pins :
    finalizeHeaders
        [("content-type", "text/html"), ("public-key-pins", "pin"), ("content-length", "999")]
        13 =
      [("content-type", "text/html"), ("public-key-pins", "pin"), ("content-length", "13")] ∧
    lookupH ("public-key-pins")
        (finalizeHeaders
          [("content-type", "text/html"), ("public-key-pins", "pin"), ("content-length", "999")]
          13) = some ("pin") ∧
    lookupH ("content-length")
        (finalizeHeaders
          [("content-type", "text/html"), ("public-key-pins", "pin"), ("content-length", "999")]
          13) = some (toString 13) := by decide

/-- JavaScript runtime errors that the embedded code can raise:
`typeError` models calling a method on `undefined` and `referenceError`
models an assignment to an undeclared identifier in a strict-mode
module. -/
inductive JsError where
  | typeError : JsError
  | referenceError : JsError
deriving DecidableEq

/-- The `Cert` class of `Violentproxy/Violenttls.js` (lines 45-79): the
constructor creates `busy = true` and an empty `onReadyCallbacks` array;
`setVal` stores the value, clears `busy` and runs the callbacks; the
certificate value is `none` until `setVal` runs. Certificate material is
modelled by an opaque numeric identifier. -/
structure VtlsCert where
  value : Option Nat
  busy : Bool
  onReadyCallbacks : List Nat
deriving DecidableEq

/-- What one call to `exports.sign` of `Violentproxy/Violenttls.js`
(lines 472-521) does with the cache entry for the derived key, seen from
the caller's stack frame. -/
inductive SignDispatch where
  /-- Cache miss: a busy `Cert` is inserted and `loadCert` starts disk
  reads; nothing runs the continuation inside this frame. -/
  | startLoad : SignDispatch
  /-- Entry busy: `onceReady` queues the continuation; nothing runs it
  inside this frame. -/
  | queueWaiter : SignDispatch
  /-- Entry ready (line 519): `process.nextTick(callback(value))`
  evaluates `callback(value)` immediately — the continuation runs inside
  the `sign` frame and only its return value reaches `nextTick`. -/
  | syncCallback (v : Nat) : SignDispatch
deriving DecidableEq

/-- The branch selection of `exports.sign` in
`Violentproxy/Violenttls.js` on the cache entry of the derived key. -/
def vtlsSignDispatch (entry : Option VtlsCert) : SignDispatch :=
  match entry with
  | none => SignDispatch.startLoad
  | some c =>
    if c.busy then SignDispatch.queueWaiter
    else SignDispatch.syncCallback (c.value.getD 0)

/-- Whether the dispatch invokes the caller's continuation synchronously
within the frame of the `sign` call that schedules it. -/
def invokedWithinSignFrame : SignDispatch → Bool
  | SignDispatch.syncCallback _ => true
  | _ => false

/-- C5: when the answer is already known (the cache entry for the key is
Ready), `exports.sign` of `Violentproxy/Violenttls.js` invokes the
continuation synchronously inside the caller's frame: line 519 reads
`process.nextTick(callback(certCache[key].value))`, which calls the
callback immediately and hands only its result to `nextTick`. This
violates the claimed scheduled-not-synchronous contract; the miss and
busy branches do not run the continuation in-frame. -/
theorem sign_ready_invokes_callback_synchronously :
    vtlsSignDispatch (some { value := some 7, busy := false, onReadyCallbacks := [] })
      = SignDispatch.syncCallback 7 ∧
    invokedWithinSignFrame
      (vtlsSignDispatch (some { value := some 7, busy := false, onReadyCallbacks := [] }))
      = true ∧
    invokedWithinSignFrame (vtlsSignDispatch none) = false ∧
    invokedWithinSignFrame
      (vtlsSignDispatch (some { value := none, busy := true, onReadyCallbacks := [] }))
      = false := by decide

/-- The `Cert` class of the newer TLS engine (`src/unnamed/part_001`,
lines 44-93). The constructor (lines 49-53) creates the properties
`value`, `busy` and `onceReadyCallbacks`; the property
`onReadyCallbacks` is NEVER created, yet `onceReady` (line 88) pushes to
it. JavaScript properties that may be absent are modelled as `Option`:
`none` is an absent property (reads as `undefined`). `setVal` deletes
`onceReadyCallbacks` after draining it, so that field is also an
`Option`. The waiter type is a parameter so the same class serves the
signer and the dynamic-server model. -/
structure P1Cert (W : Type) where
  value : Option Nat
  busy : Bool
  onceReadyCallbacks : Option (List W)
  onReadyCallbacks : Option (List W)
deriving DecidableEq

/-- `new Cert()` in `src/unnamed/part_001`: `value = null`,
`busy = true`, `onceReadyCallbacks = []`; no `onReadyCallbacks`
property. -/
def newP1Cert {W : Type} : P1Cert W :=
  { value := none, busy := true, onceReadyCallbacks := some [], onReadyCallbacks := none }

/-- `Cert.onceReady` of `src/unnamed/part_001` (lines 86-92): when busy
it executes `this.onReadyCallbacks.push(func)` — but the constructor
only created `onceReadyCallbacks`, so the property read yields
`undefined` and the `push` throws a TypeError. When not busy the waiter
is scheduled with `process.nextTick`; the scheduled waiters are returned
alongside the updated object. -/
def p1OnceReady {W : Type} (c : P1Cert W) (w : W) :
    Except JsError (P1Cert W × List W) :=
  if c.busy then
    match c.onReadyCallbacks with
    | none => Except.error JsError.typeError
    | some l =>
      Except.ok ({ c with onReadyCallbacks := some (l ++ [w]) }, [])
  else
    Except.ok (c, [w])

/-- `Cert.setVal` of `src/unnamed/part_001` (lines 59-80): store the
value, clear `busy`, drain `onceReadyCallbacks` through `nextTick` and
delete the property. A second `setVal` reads `.length` of the deleted
property (line 75) and throws a TypeError. The drained waiters are
returned for scheduling. -/
def p1SetVal {W : Type} (c : P1Cert W) (v : Nat) :
    Except JsError (P1Cert W × List W) :=
  match c.onceReadyCallbacks with
  | none => Except.error JsError.typeError
  | some ws =>
    Except.ok
      ({ value := some v, busy := false, onceReadyCallbacks := none,
         onReadyCallbacks := c.onReadyCallbacks }, ws)

/-- The effect of one `exports.sign` call of `src/unnamed/part_001`
(lines 500-556) on the cache entry of the derived key, before any
pending I/O completes. -/
inductive P1SignEffect where
  /-- Cache miss: insert a busy `Cert` and start `loadCert`. -/
  | startedLoad : P1SignEffect
  /-- Entry busy: the caller was handed to `Cert.onceReady`. -/
  | waiterQueued : P1SignEffect
  /-- Entry ready: the continuation is scheduled on a later tick. -/
  | tickScheduled : P1SignEffect
deriving DecidableEq

/-- One `exports.sign` call of `src/unnamed/part_001` against the cache
entry for the derived key (callers are identified by a number). -/
def p1Sign (entry : Option (P1Cert Nat)) (caller : Nat) :
    Except JsError (Option (P1Cert Nat) × P1SignEffect) :=
  match entry with
  | none => Except.ok (some newP1Cert, P1SignEffect.startedLoad)
  | some c =>
    if c.busy then
      match p1OnceReady c caller with
      | Except.error e => Except.error e
      | Except.ok (c2, _) => Except.ok (some c2, P1SignEffect.waiterQueued)
    else
      Except.ok (entry, P1SignEffect.tickScheduled)

/-- Two concurrent `sign(h)` calls for the same host, the second issued
before the first one's disk I/O or key generation completes: the first
call inserts the Pending entry, the second finds it busy. -/
def p1TwoConcurrentSigns : Except JsError (Option (P1Cert Nat) × P1SignEffect) :=
  match p1Sign none 1 with
  | Except.error e => Except.error e
  | Except.ok (st, _) => p1Sign st 2

/-- C1: with two concurrent `sign(h)` calls issued before either
completes, the second caller does not receive any certificate material:
`Cert.onceReady` pushes to the never-created `onReadyCallbacks` property
(the constructor created `onceReadyCallbacks`), so the second call
throws a TypeError and the process's uncaught-exception handler
re-raises it. The first call has merely started one load (no second
generation is triggered), so the claim's "identical material for all N
continuations" fails. -/
theorem concurrent_sign_second_caller_crashes :
    p1TwoConcurrentSigns = Except.error JsError.typeError ∧
    p1Sign none 1 = Except.ok (some newP1Cert, P1SignEffect.startedLoad) ∧
    p1OnceReady (newP1Cert : P1Cert Nat) 2 = Except.error JsError.typeError :=
  ⟨rfl, rfl, rfl⟩

/-- One entry of the `subjectAltName` extension produced by
`getServerExt` of `src/unnamed/part_001` (lines 221-259): a `type: 2`
DNS entry with a string value, or a `type: 7` IP entry whose `ip` field
is whatever `ips[i]` evaluated to — `none` models the JavaScript
`undefined` produced by an out-of-range index. -/
inductive AltName where
  | dnsName (v : JStr) : AltName
  | ipAddr (v : Option JStr) : AltName
deriving DecidableEq

/-- The `subjectAltName` entries built by `getServerExt`
(`src/unnamed/part_001`, lines 244-257): one DNS entry per domain, and
then — because the second loop also iterates `i` up to `domains.length`
— one IP entry per DOMAIN, holding `ips[i]`. -/
def getServerExtAltNames (domains ips : List JStr) : List AltName :=
  domains.map AltName.dnsName
    ++ (List.range domains.length).map (fun i => AltName.ipAddr ips[i]?)

/-- C6: `sign("a.example.com")` calls `genCert` with
`domains = [a.example.com, *.example.com]` and `ips = []`, and the
resulting `subjectAltName` is NOT just the two DNS names: the IP loop of
`getServerExt` iterates over `domains.length`, so two `type: 7` entries
with an undefined `ip` are appended. The same happens for
`sign("example.com")`. -/
theorem leaf_san_contains_bogus_ip_entries :
    domainsToSign (jstr ("a.example.com"))
      = [jstr ("a.example.com"), jstr ("*.example.com")] ∧
    getServerExtAltNames (domainsToSign (jstr ("a.example.com"))) []
      = [AltName.dnsName (jstr ("a.example.com")),
         AltName.dnsName (jstr ("*.example.com")),
         AltName.ipAddr none, AltName.ipAddr none] ∧
    getServerExtAltNames (domainsToSign (jstr ("example.com"))) []
      = [AltName.dnsName (jstr ("example.com")),
         AltName.dnsName (jstr ("*.example.com")),
         AltName.ipAddr none, AltName.ipAddr none] := by decide

/-- JavaScript `Number` coercion for the strings that reach the
multiplication `arr[++i] * 1000` in the agent pool: surrounding spaces
are trimmed, an empty string is `0`, a digit string is its value, and
anything else is `NaN` (`none`). -/
def jsNum (s : JStr) : Option Nat :=
  if (jsTrim s).isEmpty then some 0
  else if (jsTrim s).all Char.isDigit then
    some ((jsTrim s).foldl (fun n c => 10 * n + (c.toNat - 48)) 0)
  else none

/-- Decimal rendering of a natural number as a `JStr`. -/
def natToJStr (n : Nat) : JStr := jstr (toString n)

/-- `arr[++i] * 1000` rendered as the string that string-concatenation
sees: the product for a numeric operand, `NaN` otherwise, and `NaN` when
the index ran past the array (`undefined * 1000`). -/
def jsNumTimes1000 (v : Option JStr) : JStr :=
  match v with
  | none => jstr ("NaN")
  | some s =>
    match jsNum s with
    | some n => natToJStr (n * 1000)
    | none => jstr ("NaN")

/-- The key-building loop of `exports.getAgent` in
`Violentproxy/Violentagent.js` (lines 52-68): the key starts as `","`;
a `timeout` entry consumes the next piece, multiplies it by 1000 and
prepends it to the key; a `max` entry consumes the next piece and
appends it verbatim; every other entry is skipped. -/
def kaLoop : List JStr → JStr → JStr
  | [], key => key
  | e :: rest, key =>
    if jsTrim e = jstr ("timeout") then
      match rest with
      | v :: rest2 => kaLoop rest2 (jsNumTimes1000 (some v) ++ key)
      | [] => jsNumTimes1000 none ++ key
    else if jsTrim e = jstr ("max") then
      match rest with
      | v :: rest2 => kaLoop rest2 (key ++ v)
      | [] => key ++ jstr ("undefined")
    else kaLoop rest key

/-- The agent-cache key that lines 52-68 of
`Violentproxy/Violentagent.js` compute from a `Keep-Alive` header value
(split on `=` and `,` by the regular expression of line 54). -/
def keepAliveKeyOf (header : JStr) : JStr :=
  kaLoop (splitBy (fun c => c == '=' || c == ',') header) (jstr (","))

/-- The agent that `exports.getAgent` would hand back. -/
inductive AgentRef where
  | closeAgent (tls : Bool) : AgentRef
  | defaultAgent (tls : Bool) : AgentRef
deriving DecidableEq

/-- `exports.getAgent` of `Violentproxy/Violentagent.js` (lines 38-79).
The close conditions and the default branch return the pre-built agents.
The keep-alive branch computes `options` and `key` (lines 49-68, see
`keepAliveKeyOf`) and then executes line 69, `cache = useTLS ? ... `
— an assignment to an identifier that is declared nowhere in this
`"use strict"` module, which throws a ReferenceError before any agent
can be cached or returned. -/
def getAgent (httpVer : String) (headers : Header) (useTLS : Bool) :
    Except JsError AgentRef :=
  if (httpVer == "1.0" && !(lookupH ("connection") headers == some ("keep-alive")))
      || (lookupH ("connection") headers == some ("close")) then
    Except.ok (AgentRef.closeAgent useTLS)
  else
    match lookupH ("keep-alive") headers with
    | some ka =>
      if ka == "" then Except.ok (AgentRef.defaultAgent useTLS)
      else Except.error JsError.referenceError
    | none => Except.ok (AgentRef.defaultAgent useTLS)

/-- C9: a request whose headers carry `Keep-Alive: timeout=5, max=1000`
(and no `Connection: close`) never receives the timeout-keyed agent: the
strict-mode assignment to the undeclared identifier `cache` on line 69
throws a ReferenceError, so `getAgent` crashes for every truthy
`Keep-Alive` header. The key the loop had computed, `5000,1000`, and the
functioning close/default branches are evaluated alongside. -/
theorem getAgent_keepalive_throws :
    getAgent ("1.1") [("keep-alive", "timeout=5, max=1000")] false
      = Except.error JsError.referenceError ∧
    keepAliveKeyOf (jstr ("timeout=5, max=1000")) = jstr ("5000,1000") ∧
    getAgent ("1.1") [("connection", "close")] false
      = Except.ok (AgentRef.closeAgent false) ∧
    getAgent ("1.0") [] true = Except.ok (AgentRef.closeAgent true) ∧
    getAgent ("1.1") [] true = Except.ok (AgentRef.defaultAgent true) :=
  ⟨rfl, by decide, rfl, rfl, rfl⟩

/-- Digit-prefix parsing used by `parseInt`: the value of the leading
run of decimal digits, or `none` when there is no leading digit. -/
def parseDigits (s : JStr) : Option Nat :=
  if (s.takeWhile Char.isDigit).isEmpty then none
  else some ((s.takeWhile Char.isDigit).foldl (fun n c => 10 * n + (c.toNat - 48)) 0)

/-- JavaScript `parseInt(x)` for the strings that reach the connect
engine: leading whitespace is skipped, an optional sign is honoured, the
leading digit run is parsed and trailing garbage is ignored; `none`
models `NaN`, which is also the result for a missing (`undefined`)
operand. -/
def jsParseInt : Option JStr → Option Int
  | none => none
  | some s =>
    match s.dropWhile (fun c => c == ' ' || c == '\t') with
    | '-' :: rest => (parseDigits rest).map (fun n => -(n : Int))
    | '+' :: rest => (parseDigits rest).map (fun n => (n : Int))
    | t => (parseDigits t).map (fun n => (n : Int))

/-- The outcome of the CONNECT target validation. -/
inductive ConnectAction where
  | destroy : ConnectAction
  | proceed (host : JStr) (port : Int) : ConnectAction
deriving DecidableEq

/-- The `host` component of `let [host, port, ...rest] = url.split(":")`. -/
def connectHost (u : JStr) : JStr := (splitChar ':' u).headD []

/-- The `port` component of the destructuring (missing when the URL has
no `:`). -/
def connectPortComponent (u : JStr) : Option JStr := (splitChar ':' u)[1]?

/-- The `rest` component of the destructuring. -/
def connectRest (u : JStr) : List JStr := (splitChar ':' u).drop 2

/-- The port replacement of `Violentengine.js` lines 1278-1282:
`port = parseInt(port)`, and a `NaN` or out-of-range port is replaced by
443. -/
def jsPort (p : Option Int) : Int :=
  match p with
  | some n => if n < 0 ∨ 65535 < n then 443 else n
  | none => 443

/-- The CONNECT target validation of the final `connectEngine`
(`Violentengine.js`, lines 1272-1282): destroy the socket when there is
more than one `:`, the host is empty (falsy), the host contains `*`, or
the host contains no `.` — note: no `localhost` exception in this
draft; otherwise proceed with the host and the defaulted port. -/
def connectEngineParse (u : JStr) : ConnectAction :=
  if 0 < (connectRest u).length ∨ connectHost u = []
      ∨ '*' ∈ connectHost u ∨ '.' ∉ connectHost u then
    ConnectAction.destroy
  else
    ConnectAction.proceed (connectHost u) (jsPort (jsParseInt (connectPortComponent u)))

/-- The host written before the first `:` of the CONNECT target,
expressed independently of `splitChar`. -/
def hostPart (u : JStr) : JStr := u.takeWhile (fun c => !(c == ':'))

/-- Modelled from the spec words of the port rule: "`port` parses to
`[0,65535]` else defaults to 443". -/
def specPort (p : Option Int) : Int :=
  match p with
  | some n => if 0 ≤ n ∧ n ≤ 65535 then n else 443
  | none => 443

theorem connectHost_eq_hostPart (u : JStr) : connectHost u = hostPart u := by
  induction u with
  | nil => rfl
  | cons x xs ih =>
    unfold connectHost hostPart at ih ⊢
    simp only [splitChar]
    by_cases hx : x = ':'
    · subst hx
      simp [List.takeWhile]
    · rw [if_neg hx]
      rcases hS : splitChar ':' xs with _ | ⟨h, t⟩
      · exact absurd hS (splitChar_ne_nil ':' xs)
      · rw [hS] at ih
        simp only [List.headD_cons] at ih
        have hxb : (x == ':') = false := by
          simp [hx]
        simp [List.takeWhile, hxb, ← ih]

theorem splitChar_length_eq_ccount (c : Char) (u : JStr) :
    (splitChar c u).length = ccount c u + 1 := by
  induction u with
  | nil => rfl
  | cons x xs ih =>
    simp only [splitChar, ccount]
    by_cases hx : x = c
    · simp [hx, ih]
      omega
    · rw [if_neg hx]
      rcases hS : splitChar c xs with _ | ⟨h, t⟩
      · exact absurd hS (splitChar_ne_nil c xs)
      · rw [hS] at ih
        simp only [List.length_cons] at ih ⊢
        simp [hx]
        omega

theorem jsPort_spec (p : Option Int) :
    jsPort p = specPort p ∧ 0 ≤ jsPort p ∧ jsPort p ≤ 65535 := by
  rcases p with _ | n
  · simp [jsPort, specPort]
  · simp only [jsPort, specPort]
    by_cases hn : n < 0 ∨ 65535 < n
    · have hn2 : ¬ (0 ≤ n ∧ n ≤ 65535) := by omega
      rw [if_pos hn, if_neg hn2]
      omega
    · have hn2 : 0 ≤ n ∧ n ≤ 65535 := by omega
      rw [if_neg hn, if_pos hn2]
      omega

/-- C7, counterexample: the claim exempts hosts equal to `localhost`
from destruction, but the final connect engine has no such exception:
the well-formed target `localhost:443` (one separator, no `*`) is
destroyed because the host contains no `.`. -/
theorem connectEngine_localhost_rejected :
    connectEngineParse (jstr ("localhost:443")) = ConnectAction.destroy ∧
    hostPart (jstr ("localhost:443")) = jstr ("localhost") ∧
    ccount ':' (jstr ("localhost:443")) = 1 ∧
    ('*' ∈ jstr ("localhost") → False) := by decide

/-- C7, amended: the connect engine destroys the client socket exactly
when the target has two or more `:` separators, an empty host, a host
containing `*`, or a host containing no `.` — with no `localhost`
exception; when it proceeds, the host is the part before the first `:`
and the port is the parsed port when that lies in `[0, 65535]` and 443
otherwise, so the proceeding port is always in range. -/
theorem connectEngine_amended (u : JStr) :
    (connectEngineParse u = ConnectAction.destroy ↔
      (2 ≤ ccount ':' u ∨ hostPart u = [] ∨ '*' ∈ hostPart u ∨ '.' ∉ hostPart u)) ∧
    (∀ h p, connectEngineParse u = ConnectAction.proceed h p →
      h = hostPart u ∧ p = specPort (jsParseInt (connectPortComponent u)) ∧
      0 ≤ p ∧ p ≤ 65535) := by
  have hhost := connectHost_eq_hostPart u
  have hrest2 : 0 < (connectRest u).length ↔ 2 ≤ ccount ':' u := by
    unfold connectRest
    rw [List.length_drop, splitChar_length_eq_ccount]
    omega
  have hCiff : (0 < (connectRest u).length ∨ connectHost u = []
      ∨ '*' ∈ connectHost u ∨ '.' ∉ connectHost u) ↔
      (2 ≤ ccount ':' u ∨ hostPart u = [] ∨ '*' ∈ hostPart u ∨ '.' ∉ hostPart u) := by
    rw [hhost, hrest2]
  constructor
  · unfold connectEngineParse
    by_cases hC : 0 < (connectRest u).length ∨ connectHost u = []
        ∨ '*' ∈ connectHost u ∨ '.' ∉ connectHost u
    · rw [if_pos hC]
      simp only [true_iff]
      exact hCiff.mp hC
    · rw [if_neg hC]
      constructor
      · intro hcontra
        cases hcontra
      · intro hcontra
        exact absurd (hCiff.mpr hcontra) hC
  · intro h p hpr
    unfold connectEngineParse at hpr
    by_cases hC : 0 < (connectRest u).length ∨ connectHost u = []
        ∨ '*' ∈ connectHost u ∨ '.' ∉ connectHost u
    · rw [if_pos hC] at hpr
      cases hpr
    · rw [if_neg hC] at hpr
      have h1 : h = connectHost u := (ConnectAction.proceed.injEq _ _ _ _ ▸ hpr).1.symm
      have h2 : p = jsPort (jsParseInt (connectPortComponent u)) :=
        (ConnectAction.proceed.injEq _ _ _ _ ▸ hpr).2.symm
      have hj := jsPort_spec (jsParseInt (connectPortComponent u))
      refine ⟨h1.trans hhost, ?_, ?_, ?_⟩
      · rw [h2, hj.1]
      · rw [h2]
        exact hj.2.1
      · rw [h2]
        exact hj.2.2

/-- C7, witness: the amended theorem applied at `example.com:99999`,
whose port is out of range and therefore replaced by 443. -/
theorem connectEngine_amended_witness :
    jstr ("example.com") = hostPart (jstr ("example.com:99999")) ∧
    (443 : Int) = specPort (jsParseInt (connectPortComponent (jstr ("example.com:99999")))) ∧
    (0 : Int) ≤ 443 ∧ (443 : Int) ≤ 65535 :=
  (connectEngine_amended (jstr ("example.com:99999"))).2 (jstr ("example.com")) 443 (by decide)

/-- A task sitting in the `process.nextTick` queue of the composed
dynamic-server/signer model. -/
inductive DynTask where
  /-- The `prepare` membership path (`Violentengine.js`, lines
  1234-1237): the host already has a context, only the caller's callback
  is scheduled. -/
  | knownCb (caller : Nat) : DynTask
  /-- The Ready path of `exports.sign` (`src/unnamed/part_001`, lines
  551-555): the scheduled closure hands the cached value to the sign
  callback, which for `prepare` pushes the host into `knownHosts` and
  calls `addContext` (lines 1239-1243). -/
  | readyCb (h : String) (caller : Nat) : DynTask
deriving DecidableEq

/-- An asynchronous operation pending inside the signer. -/
inductive DynJob where
  /-- The `loadCert` disk reads started by a cache miss of
  `exports.sign` (lines 520-523). -/
  | loadJob (h : String) (caller : Nat) : DynJob
  /-- The RSA key generation started by `genCert` (lines 350-401). -/
  | genJob (h : String) (caller : Nat) : DynJob
deriving DecidableEq

/-- The state of the dynamic SNI server (`DynamicServer` of
`Violentengine.js`, final draft) composed with the certificate cache of
the signer (`src/unnamed/part_001`), for one family of hosts sharing a
single cache key: `known` is `knownHosts`, `cache` the entry of the
shared key, `ticks` the `nextTick` queue, `ioQ` the pending signer I/O,
`adds` the hosts passed to `server.addContext` in order, `done` the
callers whose `prepare` callback ran, and `crashed` records an uncaught
exception (the process re-raises and dies, freezing the state). -/
structure DynState where
  known : List String
  cache : Option (P1Cert (String × Nat))
  ticks : List DynTask
  ioQ : List DynJob
  adds : List String
  done : List Nat
  crashed : Bool
deriving DecidableEq

/-- The initial state: no known hosts, no cache entry. -/
def dynInit : DynState :=
  { known := [], cache := none, ticks := [], ioQ := [], adds := [], done := [], crashed := false }

/-- An event of the cooperative event loop: the arrival of a
`prepare(h, callback)` call from a CONNECT tunnel, one `nextTick` turn,
or the completion of the oldest pending signer I/O (for a load, the
environment says whether the certificate files were found and whether
the loaded certificate is within two months of expiry). -/
inductive DynEv where
  | prep (h : String) (caller : Nat) : DynEv
  | tick : DynEv
  | io (found : Bool) (expiring : Bool) : DynEv
deriving DecidableEq

/-- One step of the composed model. `prep` follows
`DynamicServer.prepare` (lines 1232-1245) into `exports.sign`
(lines 500-556); `tick` runs the oldest scheduled task; `io` completes
the oldest signer operation following `loadCert` (lines 410-432),
`genCert` (lines 350-401) and the `sign` callbacks around them. A load
hit runs `setVal` and then either uses the value (pushing the host and
adding the context synchronously) or, when expiring, starts `genCert`;
a load miss starts `genCert`; a finished generation runs `setVal` and
then the sign callback. A thrown `TypeError` (waiter push on the
missing `onReadyCallbacks` property, or `setVal` after the drain deleted
`onceReadyCallbacks`) crashes the process. -/
def dynStep (s : DynState) (e : DynEv) : DynState :=
  if s.crashed then s
  else
    match e with
    | DynEv.prep h caller =>
      if s.known.contains h then
        { s with ticks := s.ticks ++ [DynTask.knownCb caller] }
      else
        match s.cache with
        | none =>
          { s with cache := some newP1Cert, ioQ := s.ioQ ++ [DynJob.loadJob h caller] }
        | some c =>
          if c.busy then
            match p1OnceReady c (h, caller) with
            | Except.error _ => { s with crashed := true }
            | Except.ok (c2, _) => { s with cache := some c2 }
          else
            { s with ticks := s.ticks ++ [DynTask.readyCb h caller] }
    | DynEv.tick =>
      match s.ticks with
      | [] => s
      | DynTask.knownCb caller :: rest =>
        { s with ticks := rest, done := s.done ++ [caller] }
      | DynTask.readyCb h caller :: rest =>
        { s with ticks := rest, known := s.known ++ [h], adds := s.adds ++ [h],
                 done := s.done ++ [caller] }
    | DynEv.io found expiring =>
      match s.ioQ with
      | [] => s
      | DynJob.loadJob h caller :: rest =>
        if found then
          match s.cache with
          | none => { s with ioQ := rest }
          | some c =>
            match p1SetVal c 1 with
            | Except.error _ => { s with crashed := true }
            | Except.ok (c2, ws) =>
              if expiring then
                { s with cache := some c2,
                         ticks := s.ticks ++ ws.map (fun w => DynTask.readyCb w.1 w.2),
                         ioQ := rest ++ [DynJob.genJob h caller] }
              else
                { s with cache := some c2,
                         ticks := s.ticks ++ ws.map (fun w => DynTask.readyCb w.1 w.2),
                         ioQ := rest, known := s.known ++ [h], adds := s.adds ++ [h],
                         done := s.done ++ [caller] }
        else
          { s with ioQ := rest ++ [DynJob.genJob h caller] }
      | DynJob.genJob h caller :: rest =>
        match s.cache with
        | none => { s with ioQ := rest }
        | some c =>
          match p1SetVal c 2 with
          | Except.error _ => { s with crashed := true }
          | Except.ok (c2, ws) =>
            { s with cache := some c2,
                     ticks := s.ticks ++ ws.map (fun w => DynTask.readyCb w.1 w.2),
                     ioQ := rest, known := s.known ++ [h], adds := s.adds ++ [h],
                     done := s.done ++ [caller] }

/-- Run the model from the initial state over a schedule of events. -/
def dynRun (evs : List DynEv) : DynState := evs.foldl dynStep dynInit

/-- Number of `addContext` calls recorded for host `h`. -/
def addCount (s : DynState) (h : String) : Nat :=
  (s.adds.filter (fun x => x == h)).length

/-- Whether an event is a `prepare` call for host `h`. -/
def isPrepFor (h : String) : DynEv → Bool
  | DynEv.prep h2 _ => h2 == h
  | _ => false

/-- Number of `prepare` calls for host `h` in a schedule. -/
def prepCount (evs : List DynEv) (h : String) : Nat :=
  (evs.filter (isPrepFor h)).length

/-- The double-add schedule: `prepare("a.example.com")` completes (its
load misses, a certificate is generated for the shared wildcard key);
then two `prepare("b.example.com")` calls arrive in the same window —
both see `b.example.com` outside `knownHosts`, both find the shared
cache entry Ready, and both get their continuation scheduled; the two
ticks then each push the host and call `addContext`. -/
def dynDoubleAddSchedule : List DynEv :=
  [DynEv.prep ("a.example.com") 0, DynEv.io false false, DynEv.io false false,
   DynEv.prep ("b.example.com") 1, DynEv.prep ("b.example.com") 2,
   DynEv.tick, DynEv.tick]

/-- C8, counterexample: under the schedule above the server calls
`addContext("b.example.com", …)` twice, with no crash — the membership
check of `prepare` runs before the asynchronous `sign`, so two calls
in flight for the same host both pass it. The two hosts do share one
certificate cache key, which is what makes the entry Ready for the
second host. The claim "at most one addContext per host over every
interleaving" is therefore false. -/
theorem prepare_concurrent_double_addContext :
    addCount (dynRun dynDoubleAddSchedule) ("b.example.com") = 2 ∧
    (dynRun dynDoubleAddSchedule).crashed = false ∧
    (dynRun dynDoubleAddSchedule).adds
      = [("a.example.com"), ("b.example.com"), ("b.example.com")] ∧
    cacheKey (jstr ("a.example.com")) = cacheKey (jstr ("b.example.com")) := by decide

/-- Whether a scheduled task will perform `addContext` for host `h`. -/
def isAddTaskFor (h : String) : DynTask → Bool
  | DynTask.readyCb h2 _ => h2 == h
  | _ => false

/-- Whether a pending signer operation belongs to a `prepare` call for
host `h` (and can therefore still lead to one `addContext` for it). -/
def isJobFor (h : String) : DynJob → Bool
  | DynJob.loadJob h2 _ => h2 == h
  | DynJob.genJob h2 _ => h2 == h

/-- Number of pending continuations that can still produce an
`addContext` for host `h`. -/
def pendCount (s : DynState) (h : String) : Nat :=
  (s.ticks.filter (isAddTaskFor h)).length + (s.ioQ.filter (isJobFor h)).length

/-- In every reachable state of the model the waiter lists of the cache
entry are empty: the constructor creates `onceReadyCallbacks = []` and
never creates `onReadyCallbacks`, and because `onceReady` pushes into
the missing `onReadyCallbacks` (and crashes), nothing is ever enqueued
before `setVal` deletes `onceReadyCallbacks`. -/
def DynWaitersNil (s : DynState) : Prop :=
  ∀ c, s.cache = some c →
    (c.onceReadyCallbacks = some [] ∨ c.onceReadyCallbacks = none) ∧
    c.onReadyCallbacks = none

theorem length_filter_snoc {α : Type} (p : α → Bool) (l : List α) (x : α) :
    ((l ++ [x]).filter p).length = (l.filter p).length + (if p x = true then 1 else 0) := by
  rw [List.filter_append]
  simp only [List.length_append]
  simp [List.filter_cons]
  split <;> simp

theorem dynStep_waiters (s : DynState) (e : DynEv) (hw : DynWaitersNil s) :
    DynWaitersNil (dynStep s e) := by
  unfold dynStep
  by_cases hcr : s.crashed = true
  · simp only [if_pos hcr]
    exact hw
  · simp only [if_neg hcr]
    cases e with
    | prep h2 caller =>
      by_cases hk : s.known.contains h2 = true
      · simp only [if_pos hk]
        intro c hc
        exact hw c hc
      · simp only [if_neg hk]
        rcases hc : s.cache with _ | c
        · simp only [hc]
          intro c2 hc2
          simp only [DynState.mk.injEq] at hc2 ⊢
          simp at hc2
          subst hc2
          simp [newP1Cert]
        · simp only [hc]
          by_cases hb : c.busy = true
          · simp only [if_pos hb]
            have hon := (hw c hc).2
            simp only [p1OnceReady, if_pos hb, hon]
            intro c2 hc2
            simp at hc2
            subst hc2
            exact hw c hc
          · simp only [if_neg hb]
            intro c2 hc2
            simp at hc2
            subst hc2
            exact hw c hc
    | tick =>
      rcases ht : s.ticks with _ | ⟨t, rest⟩
      · simp only [ht]
        exact hw
      · cases t with
        | knownCb caller =>
          simp only [ht]
          intro c hc
          simp at hc
          exact hw c hc
        | readyCb h2 caller =>
          simp only [ht]
          intro c hc
          simp at hc
          exact hw c hc
    | io found expiring =>
      rcases hq : s.ioQ with _ | ⟨j, rest⟩
      · simp only [hq]
        exact hw
      · cases j with
        | loadJob h2 caller =>
          simp only [hq]
          by_cases hf : found = true
          · simp only [if_pos hf]
            rcases hc : s.cache with _ | c
            · simp only [hc]
              intro c2 hc2
              simp at hc2
            · simp only [hc]
              rcases (hw c hc).1 with ho | ho
              · simp only [p1SetVal, ho]
                by_cases he : expiring = true
                · simp only [if_pos he]
                  intro c2 hc2
                  simp at hc2
                  subst hc2
                  exact ⟨Or.inr rfl, (hw c hc).2⟩
                · simp only [if_neg he]
                  intro c2 hc2
                  simp at hc2
                  subst hc2
                  exact ⟨Or.inr rfl, (hw c hc).2⟩
              · simp only [p1SetVal, ho]
                intro c2 hc2
                simp at hc2
                subst hc2
                exact hw c hc
          · simp only [if_neg hf]
            intro c hc
            simp at hc
            exact hw c hc
        | genJob h2 caller =>
          simp only [hq]
          rcases hc : s.cache with _ | c
          · simp only [hc]
            intro c2 hc2
            simp at hc2
          · simp only [hc]
            rcases (hw c hc).1 with ho | ho
            · simp only [p1SetVal, ho]
              intro c2 hc2
              simp at hc2
              subst hc2
              exact ⟨Or.inr rfl, (hw c hc).2⟩
            · simp only [p1SetVal, ho]
              intro c2 hc2
              simp at hc2
              subst hc2
              exact hw c hc

theorem dynStep_bound (s : DynState) (e : DynEv) (h : String) (hw : DynWaitersNil s) :
    addCount (dynStep s e) h + pendCount (dynStep s e) h ≤
      addCount s h + pendCount s h + (if isPrepFor h e = true then 1 else 0) := by
  unfold dynStep
  by_cases hcr : s.crashed = true
  · simp only [if_pos hcr]
    omega
  · simp only [if_neg hcr]
    cases e with
    | prep h2 caller =>
      simp only [isPrepFor]
      by_cases hh : (h2 == h) = true
      all_goals by_cases hk : s.known.contains h2 = true
      · simp only [if_pos hk]
        simp [addCount, pendCount, length_filter_snoc, isAddTaskFor, hh] <;> omega
      · simp only [if_neg hk]
        rcases hc : s.cache with _ | c
        · simp only [hc]
          simp [addCount, pendCount, length_filter_snoc, isJobFor, hh] <;> omega
        · simp only [hc]
          by_cases hb : c.busy = true
          · have hon := (hw c hc).2
            simp only [if_pos hb, p1OnceReady, hon]
            simp [addCount, pendCount, hh] <;> omega
          · simp only [if_neg hb]
            simp [addCount, pendCount, length_filter_snoc, isAddTaskFor, hh] <;> omega
      · simp only [if_pos hk]
        simp [addCount, pendCount, length_filter_snoc, isAddTaskFor, hh] <;> omega
      · simp only [if_neg hk]
        rcases hc : s.cache with _ | c
        · simp only [hc]
          simp [addCount, pendCount, length_filter_snoc, isJobFor, hh] <;> omega
        · simp only [hc]
          by_cases hb : c.busy = true
          · have hon := (hw c hc).2
            simp only [if_pos hb, p1OnceReady, hon]
            simp [addCount, pendCount, hh] <;> omega
          · simp only [if_neg hb]
            simp [addCount, pendCount, length_filter_snoc, isAddTaskFor, hh] <;> omega
    | tick =>
      simp only [isPrepFor]
      rcases ht : s.ticks with _ | ⟨t, rest⟩
      · simp only [ht]
        omega
      · cases t with
        | knownCb caller =>
          simp only [ht]
          simp [addCount, pendCount, ht, List.filter_cons, isAddTaskFor] <;> omega
        | readyCb h2 caller =>
          simp only [ht]
          by_cases hh : (h2 == h) = true
          · simp [addCount, pendCount, ht, List.filter_cons, isAddTaskFor,
              length_filter_snoc, hh] <;> omega
          · simp [addCount, pendCount, ht, List.filter_cons, isAddTaskFor,
              length_filter_snoc, hh] <;> omega
    | io found expiring =>
      simp only [isPrepFor]
      rcases hq : s.ioQ with _ | ⟨j, rest⟩
      · simp only [hq]
        omega
      · cases j with
        | loadJob h2 caller =>
          simp only [hq]
          by_cases hh : (h2 == h) = true
          all_goals by_cases hf : found = true
          · simp only [if_pos hf]
            rcases hc : s.cache with _ | c
            · simp only [hc]
              simp [addCount, pendCount, hq, List.filter_cons, isJobFor, hh] <;> omega
            · simp only [hc]
              rcases (hw c hc).1 with ho | ho
              · simp only [p1SetVal, ho]
                by_cases he : expiring = true
                · simp only [if_pos he]
                  simp [addCount, pendCount, hq, List.filter_cons, isJobFor,
                    length_filter_snoc, hh] <;> omega
                · simp only [if_neg he]
                  simp [addCount, pendCount, hq, List.filter_cons, isJobFor,
                    length_filter_snoc, isAddTaskFor, hh] <;> omega
              · simp only [p1SetVal, ho]
                simp [addCount, pendCount, hq, List.filter_cons, isJobFor, hh] <;> omega
          · simp only [if_neg hf]
            simp [addCount, pendCount, hq, List.filter_cons, isJobFor,
              length_filter_snoc, hh] <;> omega
          · simp only [if_pos hf]
            rcases hc : s.cache with _ | c
            · simp only [hc]
              simp [addCount, pendCount, hq, List.filter_cons, isJobFor, hh] <;> omega
            · simp only [hc]
              rcases (hw c hc).1 with ho | ho
              · simp only [p1SetVal, ho]
                by_cases he : expiring = true
                · simp only [if_pos he]
                  simp [addCount, pendCount, hq, List.filter_cons, isJobFor,
                    length_filter_snoc, hh] <;> omega
                · simp only [if_neg he]
                  simp [addCount, pendCount, hq, List.filter_cons, isJobFor,
                    length_filter_snoc, isAddTaskFor, hh] <;> omega
              · simp only [p1SetVal, ho]
                simp [addCount, pendCount, hq, List.filter_cons, isJobFor, hh] <;> omega
          · simp only [if_neg hf]
            simp [addCount, pendCount, hq, List.filter_cons, isJobFor,
              length_filter_snoc, hh] <;> omega
        | genJob h2 caller =>
          simp only [hq]
          by_cases hh : (h2 == h) = true
          all_goals rcases hc : s.cache with _ | c
          · simp only [hc]
            simp [addCount, pendCount, hq, List.filter_cons, isJobFor, hh] <;> omega
          · simp only [hc]
            rcases (hw c hc).1 with ho | ho
            · simp only [p1SetVal, ho]
              simp [addCount, pendCount, hq, List.filter_cons, isJobFor,
                length_filter_snoc, hh] <;> omega
            · simp only [p1SetVal, ho]
              simp [addCount, pendCount, hq, List.filter_cons, isJobFor, hh] <;> omega
          · simp only [hc]
            simp [addCount, pendCount, hq, List.filter_cons, isJobFor, hh] <;> omega
          · simp only [hc]
            rcases (hw c hc).1 with ho | ho
            · simp only [p1SetVal, ho]
              simp [addCount, pendCount, hq, List.filter_cons, isJobFor,
                length_filter_snoc, hh] <;> omega
            · simp only [p1SetVal, ho]
              simp [addCount, pendCount, hq, List.filter_cons, isJobFor, hh] <;> omega

theorem dynRun_bound_aux (evs : List DynEv) :
    ∀ (s : DynState) (h : String), DynWaitersNil s →
      addCount (evs.foldl dynStep s) h + pendCount (evs.foldl dynStep s) h ≤
        addCount s h + pendCount s h + prepCount evs h := by
  induction evs with
  | nil =>
    intro s h hw
    simp [prepCount]
  | cons e evs ih =>
    intro s h hw
    have hstep := dynStep_bound s e h hw
    have hw2 := dynStep_waiters s e hw
    have hrec := ih (dynStep s e) h hw2
    simp only [List.foldl_cons] at hrec ⊢
    have hpc : prepCount (e :: evs) h
        = (if isPrepFor h e = true then 1 else 0) + prepCount evs h := by
      simp [prepCount, List.filter_cons]
      split <;> simp <;> omega
    omega

/-- C8, amended: over every interleaving of `prepare` calls and signer
completions, the number of `addContext(h, …)` calls is bounded by the
number of `prepare(h, …)` calls — not by one: the membership check of
`prepare` runs before the asynchronous `sign`, so it only stops calls
that arrive after an earlier `prepare` for the same host has already
registered it, and each in-flight `prepare` performs its own
`addContext` (see the counterexample with two calls and two adds). -/
theorem prepare_addContext_bounded (evs : List DynEv) (h : String) :
    addCount (dynRun evs) h ≤ prepCount evs h := by
  have hinit : DynWaitersNil dynInit := by
    intro c hc
    simp [dynInit] at hc
  have hrun := dynRun_bound_aux evs dynInit h hinit
  unfold dynRun
  have hz1 : addCount dynInit h = 0 := by simp [addCount, dynInit]
  have hz2 : pendCount dynInit h = 0 := by simp [pendCount, dynInit]
  omega
